import Mathlib

/-!
Shallow embedding of `src/server.js` (recorder-backend): a recording store
over a metadata index (sqlite table `recordings`) and an on-disk blob area,
with range-serving of stored blobs.

The index is modelled as a `List Recording` (one element per table row), the
filesystem as a partial map from paths to byte lists.  The four HTTP handlers
are modelled as pure functions from (index, filesystem, request data) to a
structured response plus the resulting index.
-/

namespace Recorder

/-! ### JavaScript string primitives used by the handlers -/

/-- JS whitespace test used by `parseInt` for leading-space skipping. -/
def isSpaceJS (c : Char) : Bool :=
  c = ' ' || c = '\t' || c = '\n' || c = '\r' || c = '\x0b' || c = '\x0c'

/-- ASCII decimal digit test. -/
def isDigitC (c : Char) : Bool :=
  48 ≤ c.toNat && c.toNat ≤ 57

/-- Numeric value of an ASCII digit. -/
def digitVal (c : Char) : Nat := c.toNat - 48

/-- ASCII digit character for a value `d < 10`. -/
def digitChar (d : Nat) : Char := Char.ofNat (48 + d)

/-- Little-endian decimal digits of `n`, with explicit fuel so that the
kernel can evaluate it (`natCharsRev n = natCharsRevFuel n n`). -/
def natCharsRevFuel : Nat → Nat → List Char
  | 0, _ => []
  | f + 1, n => if n = 0 then [] else digitChar (n % 10) :: natCharsRevFuel f (n / 10)

/-- Decimal digit characters of `n`, most significant first (`["0"]` for 0):
the rendering JS uses for a nonnegative number in a template literal. -/
def natChars (n : Nat) : List Char :=
  if n = 0 then ['0'] else (natCharsRevFuel n n).reverse

/-- Decimal string of a `Nat`, as JS renders nonnegative numbers. -/
def natStr (n : Nat) : String := String.mk (natChars n)

/-- Value of a big-endian digit-character list. -/
def digitsVal (cs : List Char) : Nat :=
  cs.foldl (fun a c => 10 * a + digitVal c) 0

/-- Maximal-digit-prefix parse: `none` when no leading digit (JS `NaN`). -/
def parseDigitsMax (cs : List Char) : Option Nat :=
  let ds := cs.takeWhile isDigitC
  if ds.isEmpty then none else some (digitsVal ds)

/-- Model of JS `parseInt(s, 10)`: skip leading whitespace, optional sign,
then the maximal digit prefix; `none` models `NaN`. -/
def parseIntChars (cs : List Char) : Option Int :=
  match cs.dropWhile isSpaceJS with
  | [] => none
  | c :: rest =>
    if c = '-' then (parseDigitsMax rest).map (fun n => -(n : Int))
    else if c = '+' then (parseDigitsMax rest).map (fun n => (n : Int))
    else (parseDigitsMax (c :: rest)).map (fun n => (n : Int))

/-- Does `pat` occur at the head of the list?  (Literal-pattern prefix test.) -/
def startsWithL : List Char → List Char → Bool
  | [], _ => true
  | _ :: _, [] => false
  | p :: ps, c :: cs => p = c && startsWithL ps cs

/-- Model of JS `String.prototype.replace(/pat/, "")` for a literal pattern:
removes the first occurrence of `pat`, leaves the string unchanged if absent. -/
def removeFirst (pat : List Char) : List Char → List Char
  | [] => []
  | c :: rest =>
    if startsWithL pat (c :: rest) then (c :: rest).drop pat.length
    else c :: removeFirst pat rest

/-- Model of JS `String.prototype.split(sep)` for a one-character separator. -/
def splitChar (sep : Char) : List Char → List (List Char)
  | [] => [[]]
  | c :: rest =>
    if c = sep then [] :: splitChar sep rest
    else
      match splitChar sep rest with
      | [] => [[c]]
      | g :: gs => (c :: g) :: gs

/-- JS rendering of a number that may be `NaN` (modelled as `none`). -/
def jsNumStr : Option Int → String
  | none => "NaN"
  | some n => if n < 0 then "-" ++ natStr n.natAbs else natStr n.toNat

/-! ### Node `path` primitives used by the handlers -/

/-- Model of `path.basename` (posix): drop trailing separators, then take the
last `/`-separated segment (an all-separator path maps to `"/"`). -/
def basenameC (l : List Char) : List Char :=
  let stripped := (l.reverse.dropWhile (fun c => c = '/')).reverse
  if stripped.isEmpty then
    if l.isEmpty then [] else ['/']
  else (splitChar '/' stripped).getLastD []

/-- Suffix of the list starting at its last `'.'`, or `[]` if it has none. -/
def lastDotSuffix : List Char → List Char
  | [] => []
  | c :: rest =>
    match lastDotSuffix rest with
    | [] => if c = '.' then c :: rest else []
    | r => r

/-- Model of `path.extname` (posix): the final segment's suffix from its last
dot, ignoring a dot in first position (`".bashrc"` has no extension). -/
def extnameC (l : List Char) : List Char :=
  match (splitChar '/' l).getLastD [] with
  | [] => []
  | _ :: rest => lastDotSuffix rest

/-! ### Data model -/

/-- One row of the sqlite `recordings` table. -/
structure Recording where
  id : Nat
  filename : String
  filepath : String
  filesize : Nat
  createdAt : String
deriving DecidableEq, Repr

/-- The on-disk blob area: path → stored bytes (`none` = no such file). -/
def FS : Type := String → Option (List Nat)

/-- Descriptor of the bytes the handler asks `fs.createReadStream` to read:
either the whole file, or an inclusive `{start, end}` window where `none`
models a `NaN` offset. -/
inductive ReadDesc where
  | whole
  | ranged (start stop : Option Int)
deriving DecidableEq, Repr

/-- The streamed-response plan a handler builds: status, headers, and the
read descriptor handed to the transport layer. -/
structure StreamPlan where
  status : Nat
  contentType : String
  contentLength : Option Int
  contentRange : Option String
  acceptRanges : Bool
  readDesc : ReadDesc
deriving DecidableEq, Repr

/-- A handler's structured outcome. -/
inductive Response where
  | errorJson (status : Nat) (error : String)
  | okJson (status : Nat) (message : String)
  | stream (plan : StreamPlan)
deriving DecidableEq, Repr

/-- Bytes actually produced by `fs.createReadStream` for a descriptor: the
whole file, or the inclusive window `[start, end]` (truncated at EOF); `none`
when Node rejects the options (`NaN`, negative, or `start > end`). -/
def runRead (content : List Nat) : ReadDesc → Option (List Nat)
  | .whole => some content
  | .ranged (some a) (some b) =>
    if 0 ≤ a ∧ a ≤ b then some ((content.drop a.toNat).take (b - a + 1).toNat)
    else none
  | .ranged _ _ => none

/-! ### Handlers (`src/server.js` lines 57–155) -/

/-- Range parsing of the stream handler (lines 113–115):
`parts = range.replace(/bytes=/, "").split("-")`,
`start = parseInt(parts[0], 10)`,
`end = parts[1] ? parseInt(parts[1], 10) : fileSize - 1`
(an absent or empty `parts[1]` is falsy in JS). -/
def parseRange (r : List Char) (fileSize : Nat) : Option Int × Option Int :=
  let parts := splitChar '-' (removeFirst "bytes=".data r)
  let start := parseIntChars (parts.headD [])
  let stop :=
    match parts[1]? with
    | some cs => if cs.isEmpty then some ((fileSize : Int) - 1) else parseIntChars cs
    | none => some ((fileSize : Int) - 1)
  (start, stop)

/-- The 206 response of lines 117–124, as a function of the parsed interval:
`chunkSize = end - start + 1` (NaN-propagating), the `Content-Range` header
string, and the `{start, end}` read descriptor. -/
def rangeResponse (start stop : Option Int) (fileSize : Nat) : Response :=
  .stream {
    status := 206
    contentType := "video/webm"
    contentLength :=
      match start, stop with
      | some a, some b => some (b - a + 1)
      | _, _ => none
    contentRange := some ("bytes " ++ jsNumStr start ++ "-" ++ jsNumStr stop
      ++ "/" ++ natStr fileSize)
    acceptRanges := true
    readDesc := .ranged start stop }

/-- `GET /api/recordings/:id` (lines 95–135): point lookup, blob-existence
check, then either a 206 range plan or a 200 full plan.  The handler never
writes to the index, so the returned index is the input one. -/
def retrieve (rows : List Recording) (fsFiles : FS) (id : Nat)
    (range : Option String) : Response × List Recording :=
  match rows.find? (fun r => r.id == id) with
  | none => (.errorJson 404 "Recording not found", rows)
  | some row =>
    match fsFiles row.filepath with
    | none => (.errorJson 404 "File missing on server", rows)
    | some content =>
      let fileSize := content.length
      let fullResp : Response := .stream {
        status := 200
        contentType := "video/webm"
        contentLength := some (fileSize : Int)
        contentRange := none
        acceptRanges := false
        readDesc := .whole }
      match range with
      | none => (fullResp, rows)
      | some r =>
        if r.data.isEmpty then (fullResp, rows)
        else
          let p := parseRange r.data fileSize
          (rangeResponse p.1 p.2 fileSize, rows)

/-- `DELETE /api/recordings/:id` (lines 138–155).  `unlinkInj` injects a
filesystem failure code into `fs.unlink` (`none` = behave per the map:
succeed when the file exists, fail with `"ENOENT"` when it does not);
`dbDeleteFails` injects a failure of the sqlite `DELETE`. -/
def deleteRecording (rows : List Recording) (fsFiles : FS)
    (unlinkInj : Option String) (dbDeleteFails : Bool) (id : Nat) :
    Response × List Recording :=
  match rows.find? (fun r => r.id == id) with
  | none => (.errorJson 404 "Recording not found", rows)
  | some row =>
    let fsErrCode : Option String :=
      match unlinkInj with
      | some code => some code
      | none => if (fsFiles row.filepath).isSome then none else some "ENOENT"
    match fsErrCode with
    | some code =>
      if code ≠ "ENOENT" then (.errorJson 500 "Failed to delete file", rows)
      else if dbDeleteFails then (.errorJson 500 "Failed to delete DB record", rows)
      else (.okJson 200 "Deleted", rows.filter (fun r => r.id != id))
    | none =>
      if dbDeleteFails then (.errorJson 500 "Failed to delete DB record", rows)
      else (.okJson 200 "Deleted", rows.filter (fun r => r.id != id))

/-- Descending-by-id order of `ORDER BY id DESC`. -/
def byIdDesc (a b : Recording) : Prop := b.id ≤ a.id

instance : DecidableRel byIdDesc := fun a b => inferInstanceAs (Decidable (b.id ≤ a.id))

instance : IsTotal Recording byIdDesc := ⟨fun a b => le_total b.id a.id⟩

instance : IsTrans Recording byIdDesc := ⟨fun _ _ _ h1 h2 => le_trans h2 h1⟩

/-- `SELECT ... FROM recordings ORDER BY id DESC`: the rows, sorted newest
(largest id) first. -/
def listAllRows (rows : List Recording) : List Recording :=
  List.insertionSort byIdDesc rows

/-- The per-row redaction of line 61: `filepath` replaced by its base name. -/
def redactRow (r : Recording) : Recording :=
  { r with filepath := String.mk (basenameC r.filepath.data) }

/-- `GET /api/recordings` (lines 57–64): list all rows newest-first with
`filepath` redacted to the base name. -/
def listRecordings (rows : List Recording) : List Recording :=
  (listAllRows rows).map redactRow

/-- The multer `filename` callback (lines 28–33):
`` `${Date.now()}-${Math.random().toString(36).slice(2)}${ext}` `` with
`ext = path.extname(file.originalname) || ".webm"`.  `nowMs` is the observed
`Date.now()` value and `randTok` the observed random base-36 token. -/
def genStorageKey (nowMs : Nat) (randTok : List Char) (originalname : String) : String :=
  let ext := if (extnameC originalname.data).isEmpty then ".webm".data
    else extnameC originalname.data
  String.mk (natChars nowMs ++ '-' :: (randTok ++ ext))

/-- Characters `Math.random().toString(36).slice(2)` can produce: base-36
digits (`0`–`9`, `a`–`z`). -/
def isBase36 (c : Char) : Bool :=
  isDigitC c || ('a' ≤ c && c ≤ 'z')

/-! ### Decimal rendering and parsing lemmas -/

lemma digitChar_props {d : Nat} (h : d < 10) :
    isDigitC (digitChar d) = true ∧ digitVal (digitChar d) = d ∧
    isSpaceJS (digitChar d) = false ∧ digitChar d ≠ '-' ∧ digitChar d ≠ '+' ∧
    digitChar d ≠ '.' ∧ digitChar d ≠ '/' := by
  interval_cases d <;>
    exact ⟨by decide, by decide, by decide, by decide, by decide, by decide, by decide⟩

lemma mem_natCharsRevFuel {c : Char} :
    ∀ {f n : Nat}, c ∈ natCharsRevFuel f n → ∃ d, d < 10 ∧ c = digitChar d := by
  intro f
  induction f with
  | zero => intro n h; simp [natCharsRevFuel] at h
  | succ f ih =>
    intro n h
    by_cases hn : n = 0
    · simp [natCharsRevFuel, hn] at h
    · rw [natCharsRevFuel, if_neg hn] at h
      rcases List.mem_cons.mp h with h | h
      · exact ⟨n % 10, Nat.mod_lt _ (by decide), h⟩
      · exact ih h

lemma mem_natChars {c : Char} {n : Nat} (h : c ∈ natChars n) :
    ∃ d, d < 10 ∧ c = digitChar d := by
  by_cases hn : n = 0
  · simp [natChars, hn] at h
    exact ⟨0, by decide, by simpa using h⟩
  · rw [natChars, if_neg hn, List.mem_reverse] at h
    exact mem_natCharsRevFuel h

lemma natChars_ne_nil (n : Nat) : natChars n ≠ [] := by
  by_cases hn : n = 0
  · simp [natChars, hn]
  · rw [natChars, if_neg hn]
    cases n with
    | zero => exact absurd rfl hn
    | succ m =>
      rw [natCharsRevFuel, if_neg hn]
      simp

lemma dash_not_mem_natChars (n : Nat) : '-' ∉ natChars n := by
  intro h
  obtain ⟨d, hd, hc⟩ := mem_natChars h
  exact (digitChar_props hd).2.2.2.1 hc.symm

lemma foldl_natCharsRevFuel :
    ∀ (f n acc : Nat), n ≤ f →
      ((natCharsRevFuel f n).reverse).foldl (fun a c => 10 * a + digitVal c) acc
        = acc * 10 ^ (natCharsRevFuel f n).length + n := by
  intro f
  induction f with
  | zero =>
    intro n acc h
    interval_cases n
    simp [natCharsRevFuel]
  | succ f ih =>
    intro n acc h
    by_cases hn : n = 0
    · simp [natCharsRevFuel, hn]
    · rw [natCharsRevFuel, if_neg hn]
      rw [List.reverse_cons, List.foldl_append]
      have hdiv : n / 10 ≤ f := by
        have hlt : n / 10 < n := Nat.div_lt_self (Nat.pos_of_ne_zero hn) (by decide)
        omega
      rw [ih (n / 10) acc hdiv]
      simp only [List.foldl_cons, List.foldl_nil, List.length_cons]
      rw [(digitChar_props (Nat.mod_lt n (by decide))).2.1]
      have hdm : 10 * (n / 10) + n % 10 = n := Nat.div_add_mod n 10
      generalize (natCharsRevFuel f (n / 10)).length = L
      rw [pow_succ]
      calc 10 * (acc * 10 ^ L + n / 10) + n % 10
          = acc * (10 ^ L * 10) + (10 * (n / 10) + n % 10) := by ring
        _ = acc * (10 ^ L * 10) + n := by rw [hdm]

lemma digitsVal_natChars (n : Nat) : digitsVal (natChars n) = n := by
  by_cases hn : n = 0
  · simp [digitsVal, natChars, hn, digitVal]
  · rw [natChars, if_neg hn, digitsVal, foldl_natCharsRevFuel n n 0 le_rfl]
    simp

lemma takeWhile_of_all {p : Char → Bool} :
    ∀ {l : List Char}, (∀ c ∈ l, p c = true) → l.takeWhile p = l := by
  intro l
  induction l with
  | nil => intro _; rfl
  | cons c t ih =>
    intro h
    rw [List.takeWhile_cons, h c (List.mem_cons_self c t)]
    simp [ih fun x hx => h x (List.mem_cons_of_mem c hx)]

lemma parseDigitsMax_natChars (n : Nat) : parseDigitsMax (natChars n) = some n := by
  have hall : ∀ c ∈ natChars n, isDigitC c = true := by
    intro c hc
    obtain ⟨d, hd, rfl⟩ := mem_natChars hc
    exact (digitChar_props hd).1
  rw [parseDigitsMax]
  simp only [takeWhile_of_all hall]
  rw [if_neg (by simpa [List.isEmpty_iff] using natChars_ne_nil n)]
  rw [digitsVal_natChars]

lemma parseIntChars_natChars (n : Nat) : parseIntChars (natChars n) = some (n : Int) := by
  obtain ⟨c, t, hct⟩ := List.exists_cons_of_ne_nil (natChars_ne_nil n)
  obtain ⟨d, hd, hcd⟩ := mem_natChars (n := n) (hct ▸ List.mem_cons_self c t)
  have hprops := digitChar_props hd
  rw [parseIntChars, hct, List.dropWhile_cons]
  rw [hcd]
  rw [hprops.2.2.1]
  simp only [Bool.false_eq_true, if_false]
  rw [if_neg hprops.2.2.2.1, if_neg hprops.2.2.2.2.1, ← hcd, ← hct,
    parseDigitsMax_natChars]
  rfl

lemma jsNumStr_natCast (n : Nat) : jsNumStr (some (n : Int)) = natStr n := by
  rw [jsNumStr, if_neg (by omega)]
  norm_num

/-! ### `replace` / `split` lemmas -/

lemma startsWithL_self_append : ∀ (p r : List Char), startsWithL p (p ++ r) = true := by
  intro p
  induction p with
  | nil => intro r; rfl
  | cons c ps ih => intro r; simp [startsWithL, ih]

lemma removeFirst_self_append (c : Char) (p rest : List Char) :
    removeFirst (c :: p) ((c :: p) ++ rest) = rest := by
  show removeFirst (c :: p) (c :: (p ++ rest)) = rest
  have h1 : startsWithL (c :: p) (c :: (p ++ rest)) = true := by
    simpa using startsWithL_self_append (c :: p) rest
  rw [removeFirst, if_pos h1]
  simp [List.drop_left (c :: p) rest]

lemma splitChar_ne_nil (sep : Char) : ∀ l : List Char, splitChar sep l ≠ [] := by
  intro l
  induction l with
  | nil => simp [splitChar]
  | cons c rest ih =>
    rw [splitChar]
    by_cases hc : c = sep
    · simp [hc]
    · rw [if_neg hc]
      cases h : splitChar sep rest with
      | nil => simp
      | cons g gs => simp

lemma splitChar_of_not_mem {sep : Char} :
    ∀ {l : List Char}, sep ∉ l → splitChar sep l = [l] := by
  intro l
  induction l with
  | nil => intro _; rfl
  | cons c rest ih =>
    intro h
    rw [splitChar, if_neg (by intro hc; exact h (hc ▸ List.mem_cons_self c rest)),
      ih (fun hm => h (List.mem_cons_of_mem c hm))]

lemma splitChar_append_cons (sep : Char) :
    ∀ (x y : List Char),
      splitChar sep (x ++ sep :: y) = splitChar sep x ++ splitChar sep y := by
  intro x y
  induction x with
  | nil => simp [splitChar]
  | cons c x' ih =>
    show splitChar sep (c :: (x' ++ sep :: y)) = splitChar sep (c :: x') ++ _
    rw [splitChar, splitChar]
    by_cases hc : c = sep
    · simp [hc, ih]
    · rw [if_neg hc, if_neg hc, ih]
      cases h : splitChar sep x' with
      | nil => exact absurd h (splitChar_ne_nil sep x')
      | cons g gs => simp

lemma mem_splitChar_not_mem {sep : Char} :
    ∀ {l g : List Char}, g ∈ splitChar sep l → sep ∉ g := by
  intro l
  induction l with
  | nil =>
    intro g hg
    simp [splitChar] at hg
    simp [hg]
  | cons c rest ih =>
    intro g hg
    rw [splitChar] at hg
    by_cases hc : c = sep
    · rw [if_pos hc] at hg
      rcases List.mem_cons.mp hg with h | h
      · simp [h]
      · exact ih h
    · rw [if_neg hc] at hg
      cases h : splitChar sep rest with
      | nil => exact absurd h (splitChar_ne_nil sep rest)
      | cons g0 gs =>
        rw [h] at hg
        rcases List.mem_cons.mp hg with h1 | h1
        · subst h1
          intro hm
          rcases List.mem_cons.mp hm with h2 | h2
          · exact hc h2.symm
          · exact ih (h ▸ List.mem_cons_self g0 gs) h2
        · exact ih (h ▸ List.mem_cons_of_mem g0 h1)

/-! ### Range-pipeline lemmas -/

/-- What `parseRange` does on any header of the shape `bytes=<a>-<b>` where
neither side contains a further dash. -/
lemma parseRange_eq (a b : List Char) (len : Nat)
    (ha : '-' ∉ a) (hb : '-' ∉ b) :
    parseRange ("bytes=".data ++ (a ++ '-' :: b)) len =
      (parseIntChars a,
        if b.isEmpty then some ((len : Int) - 1) else parseIntChars b) := by
  rw [parseRange]
  have hdata : "bytes=".data = 'b' :: "ytes=".data := rfl
  rw [hdata, removeFirst_self_append, splitChar_append_cons,
    splitChar_of_not_mem ha, splitChar_of_not_mem hb]
  simp

lemma retrieve_of_range (rows : List Recording) (fsFiles : FS) (id : Nat)
    (row : Recording) (content : List Nat) (rest : List Char)
    (hrow : rows.find? (fun r => r.id == id) = some row)
    (hfs : fsFiles row.filepath = some content) :
    retrieve rows fsFiles id (some (String.mk ("bytes=".data ++ rest))) =
      (rangeResponse (parseRange ("bytes=".data ++ rest) content.length).1
        (parseRange ("bytes=".data ++ rest) content.length).2 content.length,
       rows) := by
  rw [retrieve, hrow]
  dsimp only
  rw [hfs]
  dsimp only
  have hne : (("bytes=".data ++ rest).isEmpty) = false := rfl
  rw [if_neg (by simp [hne])]

lemma retrieve_of_none (rows : List Recording) (fsFiles : FS) (id : Nat)
    (row : Recording) (content : List Nat)
    (hrow : rows.find? (fun r => r.id == id) = some row)
    (hfs : fsFiles row.filepath = some content) :
    retrieve rows fsFiles id none =
      (.stream {
        status := 200
        contentType := "video/webm"
        contentLength := some (content.length : Int)
        contentRange := none
        acceptRanges := false
        readDesc := .whole }, rows) := by
  rw [retrieve, hrow]
  dsimp only
  rw [hfs]

lemma headerString_eq (s e : Nat) :
    "bytes=" ++ natStr s ++ "-" ++ natStr e =
      String.mk ("bytes=".data ++ (natChars s ++ '-' :: natChars e)) := by
  apply String.ext
  simp [String.data_append, natStr]

lemma headerStringOpen_eq (s : Nat) :
    "bytes=" ++ natStr s ++ "-" =
      String.mk ("bytes=".data ++ (natChars s ++ '-' :: ([] : List Char))) := by
  apply String.ext
  simp [String.data_append, natStr]

lemma headerStringSuffix_eq (e : Nat) :
    "bytes=-" ++ natStr e =
      String.mk ("bytes=".data ++ (([] : List Char) ++ '-' :: natChars e)) := by
  apply String.ext
  simp [String.data_append, natStr]

lemma natChars_not_isEmpty (n : Nat) : (natChars n).isEmpty = false := by
  simpa [List.isEmpty_iff] using natChars_ne_nil n

/-! ### Claims about the range-serving pipeline -/

/-- C1: for a stored recording of `totalLength` bytes and `0 ≤ start ≤ end <
totalLength`, retrieving with header `bytes=start-end` yields status 206, a
`Content-Length` of `end - start + 1`, the `Content-Range` header
`bytes start-end/totalLength`, and a body of exactly the `end - start + 1`
bytes `[start, end]` of the content. -/
theorem range_request_law (rows : List Recording) (fsFiles : FS) (id : Nat)
    (row : Recording) (content : List Nat) (s e : Nat)
    (hrow : rows.find? (fun r => r.id == id) = some row)
    (hfs : fsFiles row.filepath = some content)
    (hse : s ≤ e) (hlt : e < content.length) :
    retrieve rows fsFiles id (some ("bytes=" ++ natStr s ++ "-" ++ natStr e)) =
      (.stream {
        status := 206
        contentType := "video/webm"
        contentLength := some ((e - s + 1 : Nat) : Int)
        contentRange := some ("bytes " ++ natStr s ++ "-" ++ natStr e
          ++ "/" ++ natStr content.length)
        acceptRanges := true
        readDesc := .ranged (some (s : Int)) (some (e : Int)) }, rows)
    ∧ runRead content (.ranged (some (s : Int)) (some (e : Int))) =
        some ((content.drop s).take (e - s + 1))
    ∧ ((content.drop s).take (e - s + 1)).length = e - s + 1 := by
  refine ⟨?_, ?_, ?_⟩
  · rw [headerString_eq, retrieve_of_range rows fsFiles id row content _ hrow hfs,
      parseRange_eq _ _ _ (dash_not_mem_natChars s) (dash_not_mem_natChars e)]
    rw [natChars_not_isEmpty e]
    simp only [Bool.false_eq_true, if_false]
    rw [parseIntChars_natChars, parseIntChars_natChars, rangeResponse]
    rw [jsNumStr_natCast, jsNumStr_natCast]
    have hcl : (e : Int) - (s : Int) + 1 = ((e - s + 1 : Nat) : Int) := by omega
    simp only [Prod.mk.injEq, Response.stream.injEq, StreamPlan.mk.injEq,
      Option.some.injEq, hcl, and_self, and_true, true_and]
  · show runRead content (.ranged (some (s : Int)) (some (e : Int))) = _
    rw [runRead]
    rw [if_pos ⟨by positivity, by exact_mod_cast hse⟩]
    have h2 : ((s : Int)).toNat = s := by omega
    have h3 : ((e : Int) - (s : Int) + 1).toNat = e - s + 1 := by omega
    rw [h2, h3]
  · simp only [List.length_take, List.length_drop]
    omega

/-- Helper: the resolved 206 plan for any parsed `bytes=<s>-<e>` header, with
no constraint at all between `s`, `e` and the total length. -/
lemma retrieve_parsed_range (rows : List Recording) (fsFiles : FS) (id : Nat)
    (row : Recording) (content : List Nat) (s e : Nat)
    (hrow : rows.find? (fun r => r.id == id) = some row)
    (hfs : fsFiles row.filepath = some content) :
    retrieve rows fsFiles id (some ("bytes=" ++ natStr s ++ "-" ++ natStr e)) =
      (.stream {
        status := 206
        contentType := "video/webm"
        contentLength := some ((e : Int) - (s : Int) + 1)
        contentRange := some ("bytes " ++ natStr s ++ "-" ++ natStr e
          ++ "/" ++ natStr content.length)
        acceptRanges := true
        readDesc := .ranged (some (s : Int)) (some (e : Int)) }, rows) := by
  rw [headerString_eq, retrieve_of_range rows fsFiles id row content _ hrow hfs,
    parseRange_eq _ _ _ (dash_not_mem_natChars s) (dash_not_mem_natChars e)]
  rw [natChars_not_isEmpty e]
  simp only [Bool.false_eq_true, if_false]
  rw [parseIntChars_natChars, parseIntChars_natChars, rangeResponse]
  rw [jsNumStr_natCast, jsNumStr_natCast]

/-- C2: the range branch performs no bounds validation beyond integer
parsing: any `bytes=start-end` header whose two sides parse as integers —
including `start > end` and `start ≥ totalLength` — still yields a 206
partial plan with exactly the parsed offsets and length `end - start + 1`
(possibly zero or negative), never an HTTP 416 rejection. -/
theorem range_no_bounds_check (rows : List Recording) (fsFiles : FS) (id : Nat)
    (row : Recording) (content : List Nat) (s e : Nat)
    (hrow : rows.find? (fun r => r.id == id) = some row)
    (hfs : fsFiles row.filepath = some content) :
    retrieve rows fsFiles id (some ("bytes=" ++ natStr s ++ "-" ++ natStr e)) =
      (.stream {
        status := 206
        contentType := "video/webm"
        contentLength := some ((e : Int) - (s : Int) + 1)
        contentRange := some ("bytes " ++ natStr s ++ "-" ++ natStr e
          ++ "/" ++ natStr content.length)
        acceptRanges := true
        readDesc := .ranged (some (s : Int)) (some (e : Int)) }, rows)
    ∧ ∀ st msg,
        (retrieve rows fsFiles id
          (some ("bytes=" ++ natStr s ++ "-" ++ natStr e))).1 ≠
            Response.errorJson st msg := by
  refine ⟨retrieve_parsed_range rows fsFiles id row content s e hrow hfs, ?_⟩
  intro st msg
  rw [retrieve_parsed_range rows fsFiles id row content s e hrow hfs]
  simp

/-- C3: retrieving with no `Range` header returns status 200 with a
`Content-Length` equal to the actual on-disk size, and the streamed bytes
are exactly the stored content, for every size including 0. -/
theorem full_retrieve_roundtrip (rows : List Recording) (fsFiles : FS)
    (id : Nat) (row : Recording) (content : List Nat)
    (hrow : rows.find? (fun r => r.id == id) = some row)
    (hfs : fsFiles row.filepath = some content) :
    retrieve rows fsFiles id none =
      (.stream {
        status := 200
        contentType := "video/webm"
        contentLength := some ((content.length : Nat) : Int)
        contentRange := none
        acceptRanges := false
        readDesc := .whole }, rows)
    ∧ runRead content .whole = some content :=
  ⟨retrieve_of_none rows fsFiles id row content hrow hfs, rfl⟩

/-- C4: a header `bytes=N-` with `0 ≤ N < totalLength` resolves to the
interval `start = N`, `end = totalLength - 1`, and the read descriptor
yields the bytes from offset `N` through the end of the file. -/
theorem open_ended_range_to_eof (rows : List Recording) (fsFiles : FS)
    (id : Nat) (row : Recording) (content : List Nat) (N : Nat)
    (hrow : rows.find? (fun r => r.id == id) = some row)
    (hfs : fsFiles row.filepath = some content)
    (hN : N < content.length) :
    retrieve rows fsFiles id (some ("bytes=" ++ natStr N ++ "-")) =
      (rangeResponse (some (N : Int)) (some ((content.length : Int) - 1))
        content.length, rows)
    ∧ runRead content (.ranged (some (N : Int)) (some ((content.length : Int) - 1))) =
        some (content.drop N) := by
  constructor
  · rw [headerStringOpen_eq, retrieve_of_range rows fsFiles id row content _ hrow hfs,
      parseRange_eq _ _ _ (dash_not_mem_natChars N) (by simp)]
    rw [parseIntChars_natChars]
    simp
  · rw [runRead]
    rw [if_pos ⟨by positivity, by omega⟩]
    have h2 : ((N : Int)).toNat = N := by omega
    have h3 : ((content.length : Int) - 1 - (N : Int) + 1).toNat = content.length - N := by
      omega
    rw [h2, h3]
    rw [List.take_of_length_le (by simp)]

/-- C10: a suffix-form header `bytes=-N` is not given suffix-range
semantics: the text before the dash is empty, its `parseInt` is `NaN`
(`none`), the handler still builds a 206 plan whose start offset is `NaN`,
the read of that descriptor produces no bytes at all (in particular not the
last `N` bytes), and no 416 rejection is issued. -/
theorem suffix_range_unsupported (rows : List Recording) (fsFiles : FS)
    (id : Nat) (row : Recording) (content : List Nat) (N : Nat)
    (hrow : rows.find? (fun r => r.id == id) = some row)
    (hfs : fsFiles row.filepath = some content) :
    parseIntChars [] = none
    ∧ retrieve rows fsFiles id (some ("bytes=-" ++ natStr N)) =
        (rangeResponse none (some (N : Int)) content.length, rows)
    ∧ runRead content (.ranged none (some (N : Int))) = none
    ∧ ∀ msg, (retrieve rows fsFiles id (some ("bytes=-" ++ natStr N))).1 ≠
        Response.errorJson 416 msg := by
  have hmain : retrieve rows fsFiles id (some ("bytes=-" ++ natStr N)) =
      (rangeResponse none (some (N : Int)) content.length, rows) := by
    rw [headerStringSuffix_eq, retrieve_of_range rows fsFiles id row content _ hrow hfs,
      parseRange_eq _ _ _ (by simp) (dash_not_mem_natChars N)]
    rw [natChars_not_isEmpty N]
    simp only [Bool.false_eq_true, if_false]
    rw [parseIntChars_natChars]
    rfl
  refine ⟨rfl, hmain, rfl, ?_⟩
  intro msg
  rw [hmain]
  simp [rangeResponse]

/-! ### Claims about delete and stale rows -/

/-- C6: when the blob unlink fails with any filesystem error other than
`ENOENT`, delete answers 500 (`StorageDeleteError`) and the index is left
unchanged — the index `DELETE` is never attempted, whatever the index layer
would have done (`dbF` is arbitrary), so the operation stays retryable. -/
theorem delete_blocked_on_unlink_error (rows : List Recording) (fsFiles : FS)
    (code : String) (dbF : Bool) (id : Nat) (row : Recording)
    (hrow : rows.find? (fun r => r.id == id) = some row)
    (hcode : code ≠ "ENOENT") :
    deleteRecording rows fsFiles (some code) dbF id =
      (.errorJson 500 "Failed to delete file", rows) := by
  rw [deleteRecording, hrow]
  dsimp only
  rw [if_pos hcode]

/-- C7: deleting a recording whose blob is already absent from disk is not
an error: the `ENOENT` from unlink is swallowed, the index row is removed,
and the handler answers 200 `"Deleted"`. -/
theorem delete_idempotent_missing_blob (rows : List Recording) (fsFiles : FS)
    (id : Nat) (row : Recording)
    (hrow : rows.find? (fun r => r.id == id) = some row)
    (hfs : fsFiles row.filepath = none) :
    deleteRecording rows fsFiles none false id =
      (.okJson 200 "Deleted", rows.filter (fun r => r.id != id))
    ∧ (rows.filter (fun r => r.id != id)).find? (fun r => r.id == id) = none := by
  constructor
  · rw [deleteRecording, hrow]
    dsimp only
    rw [hfs]
    simp
  · rw [List.find?_eq_none]
    intro x hx
    have hmem := List.mem_filter.mp hx
    simpa using hmem.2

/-- C8: when the index row exists but the blob is gone from disk, retrieve
answers 404 `"File missing on server"` for any `Range` header, and the index
is left unchanged (the stale row is not deleted or modified). -/
theorem retrieve_stale_row_untouched (rows : List Recording) (fsFiles : FS)
    (id : Nat) (row : Recording) (range : Option String)
    (hrow : rows.find? (fun r => r.id == id) = some row)
    (hfs : fsFiles row.filepath = none) :
    retrieve rows fsFiles id range =
      (.errorJson 404 "File missing on server", rows) := by
  rw [retrieve, hrow]
  dsimp only
  rw [hfs]

/-! ### Claims about the list operation -/

lemma dropWhile_ne_nil_of_exists {p : Char → Bool} :
    ∀ {l : List Char}, (∃ c ∈ l, p c = false) → l.dropWhile p ≠ [] := by
  intro l
  induction l with
  | nil => rintro ⟨c, hc, _⟩; simp at hc
  | cons a t ih =>
    rintro ⟨c, hc, hpc⟩
    rw [List.dropWhile_cons]
    by_cases hpa : p a = true
    · rw [if_pos hpa]
      rcases List.mem_cons.mp hc with rfl | hct
      · rw [hpa] at hpc; cases hpc
      · exact ih ⟨c, hct, hpc⟩
    · rw [if_neg hpa]
      simp

lemma getLastD_mem {α : Type} (d : α) (L : List α) (h : L ≠ []) :
    L.getLastD d ∈ L := by
  rw [List.getLastD_eq_getLast? d L]
  cases hgl : L.getLast? with
  | none => exact absurd (List.getLast?_eq_none_iff.mp hgl) h
  | some a =>
    obtain ⟨h', ha⟩ := List.mem_getLast?_eq_getLast (show a ∈ L.getLast? by rw [hgl]; rfl)
    simpa [← ha] using List.getLast_mem h'

/-- A path with at least one non-separator character has a `/`-free
base name. -/
lemma basenameC_no_slash {l : List Char} (h : ∃ c ∈ l, c ≠ '/') :
    '/' ∉ basenameC l := by
  rw [basenameC]
  have hne : (l.reverse.dropWhile (fun c => c = '/')).reverse ≠ [] := by
    obtain ⟨c, hc, hcs⟩ := h
    have : l.reverse.dropWhile (fun c => c = '/') ≠ [] :=
      dropWhile_ne_nil_of_exists ⟨c, List.mem_reverse.mpr hc, by simp [hcs]⟩
    simpa using this
  rw [if_neg (by simpa [List.isEmpty_iff] using hne)]
  exact mem_splitChar_not_mem
    (getLastD_mem _ _ (splitChar_ne_nil '/' _))

/-- C9: the list operation returns the redaction of every index row, ordered
newest first (id descending), and — provided each stored path has at least
one non-separator character, as every really stored path does — no returned
`filepath` contains a `/`: the index's directory structure never leaks. -/
theorem list_newest_first_redacted (rows : List Recording)
    (hpaths : ∀ r ∈ rows, ∃ c ∈ r.filepath.data, c ≠ '/') :
    (listRecordings rows).Pairwise (fun a b => b.id ≤ a.id)
    ∧ List.Perm (listRecordings rows) (rows.map redactRow)
    ∧ ∀ out ∈ listRecordings rows, '/' ∉ out.filepath.data := by
  refine ⟨?_, ?_, ?_⟩
  · have hs : (listAllRows rows).Pairwise byIdDesc :=
      List.sorted_insertionSort byIdDesc rows
    exact hs.map redactRow (fun a b hab => hab)
  · exact (List.perm_insertionSort byIdDesc rows).map redactRow
  · intro out hout
    obtain ⟨r, hr, rfl⟩ := List.mem_map.mp hout
    have hrows : r ∈ rows := (List.perm_insertionSort byIdDesc rows).mem_iff.mp hr
    exact basenameC_no_slash (hpaths r hrows)

/-! ### Claims about storage-key generation -/

lemma lastDotSuffix_shape :
    ∀ l : List Char, lastDotSuffix l = [] ∨ ∃ t, lastDotSuffix l = '.' :: t := by
  intro l
  induction l with
  | nil => left; rfl
  | cons c rest ih =>
    rw [lastDotSuffix]
    cases h : lastDotSuffix rest with
    | nil =>
      by_cases hc : c = '.'
      · subst hc
        right
        exact ⟨rest, by rw [if_pos rfl]⟩
      · left
        rw [if_neg hc]
    | cons d t =>
      dsimp only
      rcases ih with h0 | ⟨t1, h1⟩
      · rw [h0] at h; cases h
      · rw [h1] at h
        obtain ⟨hd, ht⟩ := List.cons.inj h
        right
        exact ⟨t, by rw [← hd]⟩

/-- The extension appended to a generated storage key always starts with a
dot: either `path.extname` produced one, or the `".webm"` fallback fires. -/
lemma extPart_starts_with_dot (l : List Char) :
    ∃ t, (if (extnameC l).isEmpty then ".webm".data else extnameC l) = '.' :: t := by
  by_cases h : (extnameC l).isEmpty
  · exact ⟨"webm".data, by rw [if_pos h]⟩
  · rw [if_neg h]
    rw [extnameC] at h ⊢
    cases hb : (splitChar '/' l).getLastD [] with
    | nil => rw [hb] at h; simp at h
    | cons c0 rest =>
      rw [hb] at h
      dsimp only at h ⊢
      rcases lastDotSuffix_shape rest with h0 | ⟨t, ht⟩
      · rw [h0] at h; simp at h
      · exact ⟨t, ht⟩

lemma base36_ne_dot {c : Char} (h : isBase36 c = true) : (c != '.') = true := by
  rcases eq_or_ne c '.' with rfl | hne
  · exact absurd h (by decide)
  · simp [hne]

lemma takeWhile_append_of_all {p : Char → Bool} {x : Char} :
    ∀ {tok rest : List Char}, (∀ c ∈ tok, p c = true) → p x = false →
      ((tok ++ x :: rest).takeWhile p) = tok := by
  intro tok
  induction tok with
  | nil =>
    intro rest _ hx
    rw [List.nil_append, List.takeWhile_cons, hx]
    simp
  | cons a t ih =>
    intro rest hall hx
    rw [List.cons_append, List.takeWhile_cons, hall a (List.mem_cons_self a t)]
    simp only [if_true]
    rw [ih (fun c hc => hall c (List.mem_cons_of_mem a hc)) hx]

/-- C5 (counterexample): two distinct back-to-back uploads (different
original filenames) that observe the same `Date.now()` millisecond and the
same `Math.random()` token are given the *same* storage key — the generator
cannot guarantee "never equal" on its own. -/
theorem storage_key_collision :
    genStorageKey 0 "abc".data "a.webm" = genStorageKey 0 "abc".data "b.webm"
    ∧ ("a.webm" : String) ≠ "b.webm"
    ∧ genStorageKey 0 "abc".data "a.webm" = "0-abc.webm" := by
  refine ⟨by decide, by decide, by decide⟩

/-- C5 (amended): storage keys generated in the same millisecond are
distinct whenever the observed random base-36 tokens are distinct; the
uniqueness of keys is exactly the uniqueness of the `(timestamp, token)`
pairs, not an unconditional guarantee. -/
theorem storage_keys_differ_of_token_ne (t : Nat) (tok1 tok2 : List Char)
    (n1 n2 : String)
    (h1 : ∀ c ∈ tok1, isBase36 c = true) (h2 : ∀ c ∈ tok2, isBase36 c = true)
    (hne : tok1 ≠ tok2) :
    genStorageKey t tok1 n1 ≠ genStorageKey t tok2 n2 := by
  intro h
  obtain ⟨e1, he1⟩ := extPart_starts_with_dot n1.data
  obtain ⟨e2, he2⟩ := extPart_starts_with_dot n2.data
  rw [genStorageKey, genStorageKey] at h
  rw [he1, he2] at h
  have hdata := congrArg String.data h
  simp only [] at hdata
  have happ : tok1 ++ '.' :: e1 = tok2 ++ '.' :: e2 := by
    have h1' := List.append_cancel_left hdata
    exact List.cons.inj h1' |>.2
  have htw : tok1 = tok2 := by
    have l1 : ((tok1 ++ '.' :: e1).takeWhile (fun c => c != '.')) = tok1 :=
      takeWhile_append_of_all (fun c hc => base36_ne_dot (h1 c hc)) (by decide)
    have l2 : ((tok2 ++ '.' :: e2).takeWhile (fun c => c != '.')) = tok2 :=
      takeWhile_append_of_all (fun c hc => base36_ne_dot (h2 c hc)) (by decide)
    rw [← l1, ← l2, happ]
  exact hne htw

/-! ### Concrete witnesses -/

/-- A stored recording whose blob is on disk. -/
def recA : Recording := ⟨1, "a.webm", "/app/uploads/100-aa.webm", 10, "2026-01-01"⟩

/-- A stored recording whose blob is missing from disk (stale row). -/
def recB : Recording := ⟨2, "b.webm", "/app/uploads/200-bb.webm", 3, "2026-01-02"⟩

def rowsW : List Recording := [recA, recB]

/-- The bytes of the string "0123456789". -/
def contentA : List Nat := [48, 49, 50, 51, 52, 53, 54, 55, 56, 57]

def fsW : FS := fun p =>
  if p = "/app/uploads/100-aa.webm" then some contentA else none

theorem range_request_law_witness :
    (rowsW.find? (fun r => r.id == 1) = some recA
      ∧ fsW recA.filepath = some contentA ∧ 2 ≤ 5 ∧ 5 < contentA.length)
    ∧ (retrieve rowsW fsW 1 (some ("bytes=" ++ natStr 2 ++ "-" ++ natStr 5)) =
        (.stream {
          status := 206
          contentType := "video/webm"
          contentLength := some ((5 - 2 + 1 : Nat) : Int)
          contentRange := some ("bytes " ++ natStr 2 ++ "-" ++ natStr 5
            ++ "/" ++ natStr contentA.length)
          acceptRanges := true
          readDesc := .ranged (some (2 : Int)) (some (5 : Int)) }, rowsW)
      ∧ runRead contentA (.ranged (some (2 : Int)) (some (5 : Int))) =
          some ((contentA.drop 2).take (5 - 2 + 1))
      ∧ ((contentA.drop 2).take (5 - 2 + 1)).length = 5 - 2 + 1) :=
  ⟨⟨by decide, by decide, by decide, by decide⟩,
    range_request_law rowsW fsW 1 recA contentA 2 5 (by decide) (by decide)
      (by decide) (by decide)⟩

theorem range_no_bounds_check_witness :
    (rowsW.find? (fun r => r.id == 1) = some recA
      ∧ fsW recA.filepath = some contentA)
    ∧ (retrieve rowsW fsW 1 (some ("bytes=" ++ natStr 5 ++ "-" ++ natStr 2)) =
        (.stream {
          status := 206
          contentType := "video/webm"
          contentLength := some ((2 : Int) - (5 : Int) + 1)
          contentRange := some ("bytes " ++ natStr 5 ++ "-" ++ natStr 2
            ++ "/" ++ natStr contentA.length)
          acceptRanges := true
          readDesc := .ranged (some (5 : Int)) (some (2 : Int)) }, rowsW)
      ∧ ∀ st msg,
          (retrieve rowsW fsW 1
            (some ("bytes=" ++ natStr 5 ++ "-" ++ natStr 2))).1 ≠
              Response.errorJson st msg) :=
  ⟨⟨by decide, by decide⟩,
    range_no_bounds_check rowsW fsW 1 recA contentA 5 2 (by decide) (by decide)⟩

theorem full_retrieve_roundtrip_witness :
    (rowsW.find? (fun r => r.id == 1) = some recA
      ∧ fsW recA.filepath = some contentA)
    ∧ (retrieve rowsW fsW 1 none =
        (.stream {
          status := 200
          contentType := "video/webm"
          contentLength := some ((contentA.length : Nat) : Int)
          contentRange := none
          acceptRanges := false
          readDesc := .whole }, rowsW)
      ∧ runRead contentA .whole = some contentA) :=
  ⟨⟨by decide, by decide⟩,
    full_retrieve_roundtrip rowsW fsW 1 recA contentA (by decide) (by decide)⟩

theorem open_ended_range_to_eof_witness :
    (rowsW.find? (fun r => r.id == 1) = some recA
      ∧ fsW recA.filepath = some contentA ∧ 3 < contentA.length)
    ∧ (retrieve rowsW fsW 1 (some ("bytes=" ++ natStr 3 ++ "-")) =
        (rangeResponse (some (3 : Int)) (some ((contentA.length : Int) - 1))
          contentA.length, rowsW)
      ∧ runRead contentA
          (.ranged (some (3 : Int)) (some ((contentA.length : Int) - 1))) =
            some (contentA.drop 3)) :=
  ⟨⟨by decide, by decide, by decide⟩,
    open_ended_range_to_eof rowsW fsW 1 recA contentA 3 (by decide) (by decide)
      (by decide)⟩

theorem suffix_range_unsupported_witness :
    (rowsW.find? (fun r => r.id == 1) = some recA
      ∧ fsW recA.filepath = some contentA)
    ∧ (parseIntChars [] = none
      ∧ retrieve rowsW fsW 1 (some ("bytes=-" ++ natStr 4)) =
          (rangeResponse none (some (4 : Int)) contentA.length, rowsW)
      ∧ runRead contentA (.ranged none (some (4 : Int))) = none
      ∧ ∀ msg, (retrieve rowsW fsW 1 (some ("bytes=-" ++ natStr 4))).1 ≠
          Response.errorJson 416 msg) :=
  ⟨⟨by decide, by decide⟩,
    suffix_range_unsupported rowsW fsW 1 recA contentA 4 (by decide) (by decide)⟩

theorem delete_blocked_on_unlink_error_witness :
    (rowsW.find? (fun r => r.id == 1) = some recA
      ∧ ("EACCES" : String) ≠ "ENOENT")
    ∧ deleteRecording rowsW fsW (some "EACCES") false 1 =
        (.errorJson 500 "Failed to delete file", rowsW) :=
  ⟨⟨by decide, by decide⟩,
    delete_blocked_on_unlink_error rowsW fsW "EACCES" false 1 recA (by decide)
      (by decide)⟩

theorem delete_idempotent_missing_blob_witness :
    (rowsW.find? (fun r => r.id == 2) = some recB
      ∧ fsW recB.filepath = none)
    ∧ (deleteRecording rowsW fsW none false 2 =
        (.okJson 200 "Deleted", rowsW.filter (fun r => r.id != 2))
      ∧ (rowsW.filter (fun r => r.id != 2)).find? (fun r => r.id == 2) = none) :=
  ⟨⟨by decide, by decide⟩,
    delete_idempotent_missing_blob rowsW fsW 2 recB (by decide) (by decide)⟩

theorem retrieve_stale_row_untouched_witness :
    (rowsW.find? (fun r => r.id == 2) = some recB
      ∧ fsW recB.filepath = none)
    ∧ retrieve rowsW fsW 2 (some "bytes=0-1") =
        (.errorJson 404 "File missing on server", rowsW) :=
  ⟨⟨by decide, by decide⟩,
    retrieve_stale_row_untouched rowsW fsW 2 recB (some "bytes=0-1") (by decide)
      (by decide)⟩

theorem list_newest_first_redacted_witness :
    (∀ r ∈ rowsW, ∃ c ∈ r.filepath.data, c ≠ '/')
    ∧ ((listRecordings rowsW).Pairwise (fun a b => b.id ≤ a.id)
      ∧ List.Perm (listRecordings rowsW) (rowsW.map redactRow)
      ∧ ∀ out ∈ listRecordings rowsW, '/' ∉ out.filepath.data) :=
  ⟨by decide, list_newest_first_redacted rowsW (by decide)⟩

theorem storage_keys_differ_of_token_ne_witness :
    ((∀ c ∈ "aa".data, isBase36 c = true) ∧ (∀ c ∈ "ab".data, isBase36 c = true)
      ∧ "aa".data ≠ "ab".data)
    ∧ genStorageKey 7 "aa".data "x.webm" ≠ genStorageKey 7 "ab".data "y.mp4" :=
  ⟨⟨by decide, by decide, by decide⟩,
    storage_keys_differ_of_token_ne 7 "aa".data "ab".data "x.webm" "y.mp4"
      (by decide) (by decide) (by decide)⟩

end Recorder
